import Mathlib

/-!
Verification development for the meeting-agent RAG core: a shallow embedding
of `VectorService` (embedding, chunking, cosine similarity, semantic search)
and `RAGService` (retrieval, boosting, deduplication, confidence scoring).

JavaScript strings are modelled as `List Char`; JavaScript `number`
(IEEE float64) is idealised as `ℝ`; the two remote HTTP calls (embedding
provider and chat provider) are modelled as oracles in explicit environment
structures, returning `some` on a 2xx response with a parseable body and
`none` on any transport error or non-2xx status.  A thrown JS exception is
modelled as `Except.error`.
-/

namespace MeetingAgent

/-- JavaScript strings, modelled as lists of (BMP) characters. -/
abbrev Str := List Char

/-- JS regex `\w` character class: ASCII letters, digits, underscore. -/
def isWordChar (c : Char) : Bool := c.isAlphanum || c = '_'

/-- CJK ideograph range `一`–`龥` used by the source regexes. -/
def isCJK (c : Char) : Bool := 0x4e00 ≤ c.toNat && c.toNat ≤ 0x9fa5

/-- JS regex `\s` (whitespace), idealised as Unicode whitespace. -/
def isWS (c : Char) : Bool := c.isWhitespace

/-- Characters kept by the tokenizer regex `[\w一-龥]+`. -/
def isTokenChar (c : Char) : Bool := isWordChar c || isCJK c

/-- `String.prototype.trim`: strip whitespace from both ends. -/
def trimStr (s : Str) : Str := ((s.dropWhile isWS).reverse.dropWhile isWS).reverse

/-- Helper for `cleanText`: JS `replace(/\s+/g, ' ')`, collapsing each
maximal whitespace run to a single space.  The flag records whether the
previous character belonged to a whitespace run already emitted. -/
def collapseWS : Bool → Str → Str
  | _, [] => []
  | prev, c :: rest =>
    if isWS c then
      if prev then collapseWS true rest else ' ' :: collapseWS true rest
    else c :: collapseWS false rest

/-- `VectorService.cleanText`: collapse whitespace, strip characters outside
`\w`, `\s` and the CJK range, trim, and truncate to 8000 characters. -/
def cleanText (text : Str) : Str :=
  (trimStr ((collapseWS false text).filter fun c => isWordChar c || isWS c || isCJK c)).take 8000

/-- Sentence-terminal punctuation of `chunkText`: `[。！？.!?]`. -/
def isPunct (c : Char) : Bool := c = '。' || c = '！' || c = '？' || c = '.' || c = '!' || c = '?'

/-- JS `text.split(/[。！？.!?]/)`: split at every terminal-punctuation
character, keeping (possibly empty) fragments. -/
def splitPunct : Str → List Str
  | [] => [[]]
  | c :: rest =>
    if isPunct c then [] :: splitPunct rest
    else
      match splitPunct rest with
      | [] => [[c]]
      | f :: fs => (c :: f) :: fs

/-- The sentence list of `chunkText`: fragments whose trim is nonempty
(JS `filter(s => s.trim())`). -/
def sentencesOf (text : Str) : List Str :=
  (splitPunct text).filter fun s => trimStr s ≠ []

/-- The accumulation loop of `VectorService.chunkText`: greedily grow
`currentChunk`, closing it when appending the next sentence would exceed
`maxLength` (the guard ignores the `'。'` separator that the join inserts),
and push the trimmed remainder at the end if nonblank. -/
def chunkLoop (maxLength : ℕ) : List Str → List Str → Str → List Str
  | [], chunks, currentChunk =>
    if trimStr currentChunk ≠ [] then chunks ++ [trimStr currentChunk] else chunks
  | s :: rest, chunks, currentChunk =>
    if maxLength < (currentChunk ++ s).length ∧ currentChunk ≠ [] then
      chunkLoop maxLength rest (chunks ++ [trimStr currentChunk]) s
    else
      chunkLoop maxLength rest chunks
        (currentChunk ++ (if currentChunk ≠ [] then ['。'] else []) ++ s)

/-- `VectorService.chunkText`: split into sentences, greedily pack them into
chunks of bounded length, and fall back to the whole text when no chunk was
produced. -/
def chunkText (text : Str) (maxLength : ℕ := 500) : List Str :=
  if (chunkLoop maxLength (sentencesOf text) [] []).length > 0 then
    chunkLoop maxLength (sentencesOf text) [] []
  else [text]

/-- Tokenizer of the fallback embedder: JS
`text.match(/[\w一-龥]+/g) || []`, the maximal runs of token
characters (on the already-lowercased text). -/
def tokenize (s : Str) : List Str :=
  match s with
  | [] => []
  | c :: rest =>
    if isTokenChar c then
      (c :: rest.takeWhile isTokenChar) :: tokenize (rest.dropWhile isTokenChar)
    else tokenize rest
termination_by s.length
decreasing_by
  · simp only [List.length_cons]
    exact Nat.lt_succ_of_le (List.dropWhile_sublist _).length_le
  · simp [Nat.lt_succ_self]

/-- The word-frequency `Map` of the fallback embedder, as an association
list in JS-`Map` insertion order: existing keys are bumped in place, new
keys are appended. -/
def bumpFreq : List (Str × ℕ) → Str → List (Str × ℕ)
  | [], w => [(w, 1)]
  | (k, n) :: rest, w =>
    if k = w then (k, n + 1) :: rest else (k, n) :: bumpFreq rest w

/-- Word frequencies of a token list (`wordFreq` in the source). -/
def wordFreq (tokens : List Str) : List (Str × ℕ) := tokens.foldl bumpFreq []

/-- JS `ToInt32`: wrap an integer into `[-2^31, 2^31)`. -/
def toInt32 (n : ℤ) : ℤ := (n + 2 ^ 31) % 2 ^ 32 - 2 ^ 31

/-- One step of `VectorService.simpleHash`:
`hash = ((hash << 5) - hash) + charCode`, re-wrapped to 32 bits by
`hash = hash & hash`.  The intermediate float64 arithmetic is exact at
these magnitudes, so only the two 32-bit wraps appear. -/
def hashStep (h : ℤ) (c : Char) : ℤ := toInt32 (toInt32 (h * 32) - h + c.toNat)

/-- `VectorService.simpleHash`: fold the step over the word and take
`Math.abs` of the resulting 32-bit integer. -/
def simpleHash (w : Str) : ℕ := (w.foldl hashStep 0).natAbs

/-- Sum of squares of a vector, as the source's
`reduce((sum, val) => sum + val * val, 0)`. -/
noncomputable def sumSq (l : List ℝ) : ℝ := l.foldl (fun s v => s + v * v) 0

/-- Dot product as accumulated by the loop of `cosineSimilarity` (the loop
runs over equal-length vectors, hence the `zip`). -/
noncomputable def dotList (a b : List ℝ) : ℝ :=
  (a.zip b).foldl (fun s p => s + p.1 * p.2) 0

/-- `VectorService.cosineSimilarity`: 0 on dimension mismatch, 0 when the
product of norms is 0, else the normalised dot product. -/
noncomputable def cosineSimilarity (a b : List ℝ) : ℝ :=
  if a.length ≠ b.length then 0
  else
    let dp := dotList a b
    let denominator := Real.sqrt (sumSq a) * Real.sqrt (sumSq b)
    if denominator = 0 then 0 else dp / denominator

/-- Scatter step of the fallback embedder: for one `(word, freq)` entry add
`freq * 0.1` at the five positions `(hash + i) % 384`, `i = 0..4`. -/
noncomputable def scatterWord (e : List ℝ) (entry : Str × ℕ) : List ℝ :=
  (List.range 5).foldl
    (fun acc i =>
      acc.set ((simpleHash entry.1 + i) % 384)
        (acc.getD ((simpleHash entry.1 + i) % 384) 0 + (entry.2 : ℝ) * 0.1))
    e

/-- The 384-dimensional hash-frequency vector of
`VectorService.getFallbackEmbedding` before normalisation. -/
noncomputable def preEmbedding (text : Str) : List ℝ :=
  (wordFreq (tokenize (text.map Char.toLower))).foldl scatterWord (List.replicate 384 0)

/-- `VectorService.getFallbackEmbedding`: hash-frequency vector, then
L2-normalise when the norm is positive, else return the vector unchanged. -/
noncomputable def getFallbackEmbedding (text : Str) : List ℝ :=
  let embedding := preEmbedding text
  let norm := Real.sqrt (sumSq embedding)
  if 0 < norm then embedding.map (fun v => v / norm) else embedding

/-- Environment of `VectorService`: the configured credential (`''` when
absent) and the remote embedding call, `some v` on 2xx success with parsed
embedding `v`, `none` on transport failure or non-2xx status. -/
structure EmbedEnv where
  apiKey : String
  remote : Str → Option (List ℝ)

/-- `VectorService.getEmbedding`: throws when no API key is configured;
otherwise calls the remote provider on the cleaned text and falls back to
the local embedding on remote failure. -/
noncomputable def getEmbedding (env : EmbedEnv) (text : Str) : Except String (List ℝ) :=
  if env.apiKey = "" then .error "API key not configured for embedding service"
  else
    let cleaned := cleanText text
    match env.remote cleaned with
    | some v => .ok v
    | none => .ok (getFallbackEmbedding cleaned)

/-- The embedding `getEmbedding` produces when a credential is configured:
the remote vector on success, the local fallback on failure. -/
noncomputable def remoteOrFallback (env : EmbedEnv) (text : Str) : List ℝ :=
  match env.remote (cleanText text) with
  | some v => v
  | none => getFallbackEmbedding (cleanText text)

/-- Metadata of a stored vector (source interface `Vector.metadata`). -/
structure VecMeta where
  segmentId : Str
  meetingId : Str
  speaker : Str
  timestamp : ℝ
  text : Str
  chunkIndex : Option ℕ

/-- A stored `(embedding, metadata)` record (source interface `Vector`). -/
structure StoredVector where
  embedding : List ℝ
  metadata : VecMeta

/-- A search hit (source interface `SimilarityResult`). -/
structure SimilarityResult where
  vector : StoredVector
  similarity : ℝ

/-- The comparator relation of the JS `sort((a, b) => b.similarity - a.similarity)`
calls: `a` precedes `b` when `b.similarity ≤ a.similarity`. -/
def simGE (a b : SimilarityResult) : Prop := b.similarity ≤ a.similarity

noncomputable instance : DecidableRel simGE := fun a b =>
  inferInstanceAs (Decidable (b.similarity ≤ a.similarity))

instance : IsTotal SimilarityResult simGE :=
  ⟨fun a b => le_total b.similarity a.similarity⟩

instance : IsTrans SimilarityResult simGE :=
  ⟨fun _ _ _ h1 h2 => le_trans h2 h1⟩

/-- Segment id of a search hit. -/
def getSeg (r : SimilarityResult) : Str := r.vector.metadata.segmentId

/-- The scored-and-sorted list of `semanticSearch`: cosine similarity of the
query embedding against every stored record, sorted descending (JS sort is
stable; so is insertion sort). -/
noncomputable def rankVectors (queryEmbedding : List ℝ) (vectors : List StoredVector) :
    List SimilarityResult :=
  List.insertionSort simGE
    (vectors.map fun v => ⟨v, cosineSimilarity queryEmbedding v.embedding⟩)

/-- `VectorService.semanticSearch`: empty store short-circuits to `[]`; an
embedding error is caught and yields `[]`; otherwise rank all records, take
the top `limit`, and drop hits with similarity ≤ 0.7. -/
noncomputable def semanticSearch (env : EmbedEnv) (vectors : List StoredVector)
    (query : Str) (limit : ℕ) : List SimilarityResult :=
  if vectors.length = 0 then []
  else
    match getEmbedding env query with
    | .error _ => []
    | .ok queryEmbedding =>
      ((rankVectors queryEmbedding vectors).take limit).filter
        fun r => decide ((0.7 : ℝ) < r.similarity)

/-- `RAGConfig` of `RAGService`. -/
structure RAGConfig where
  maxContextLength : ℕ
  temperature : ℝ
  maxTokens : ℕ
  retrievalLimit : ℕ
  similarityThreshold : ℝ

/-- The default configuration `{4000, 0.7, 800, 6, 0.75}`. -/
noncomputable def defaultConfig : RAGConfig :=
  { maxContextLength := 4000
    temperature := 0.7
    maxTokens := 800
    retrievalLimit := 6
    similarityThreshold := 0.75 }

/-- A TypeScript `Partial<RAGConfig>`: each field optionally present. -/
structure ConfigPatch where
  maxContextLength : Option ℕ := none
  temperature : Option ℝ := none
  maxTokens : Option ℕ := none
  retrievalLimit : Option ℕ := none
  similarityThreshold : Option ℝ := none

/-- `RAGService.updateConfig`: the spread merge
`{ ...this.config, ...config }` — present fields overwrite, absent fields
keep their prior value. -/
def updateConfig (config : RAGConfig) (p : ConfigPatch) : RAGConfig :=
  { maxContextLength := p.maxContextLength.getD config.maxContextLength
    temperature := p.temperature.getD config.temperature
    maxTokens := p.maxTokens.getD config.maxTokens
    retrievalLimit := p.retrievalLimit.getD config.retrievalLimit
    similarityThreshold := p.similarityThreshold.getD config.similarityThreshold }

/-- `RAGService.boostCurrentMeeting`: multiply the similarity of hits from
the current meeting by 1.2, then re-sort descending. -/
noncomputable def boostCurrentMeeting (results : List SimilarityResult)
    (currentMeetingId : Str) : List SimilarityResult :=
  List.insertionSort simGE
    (results.map fun r =>
      if r.vector.metadata.meetingId = currentMeetingId then
        ⟨r.vector, r.similarity * 1.2⟩
      else r)

/-- JS `Map.prototype.set` on an association list: overwrite in place,
append new keys at the end (insertion order). -/
def setAssoc : List (Str × SimilarityResult) → Str → SimilarityResult →
    List (Str × SimilarityResult)
  | [], k, v => [(k, v)]
  | (k', v') :: rest, k, v =>
    if k' = k then (k, v) :: rest else (k', v') :: setAssoc rest k v

/-- JS `Map.prototype.get` on an association list. -/
def getAssoc : List (Str × SimilarityResult) → Str → Option SimilarityResult
  | [], _ => none
  | (k', v') :: rest, k => if k' = k then some v' else getAssoc rest k

/-- One iteration of `RAGService.deduplicateResults`: store the hit when its
segment id is new or its similarity strictly exceeds the stored one. -/
noncomputable def dedupStep (m : List (Str × SimilarityResult)) (r : SimilarityResult) :
    List (Str × SimilarityResult) :=
  match getAssoc m (getSeg r) with
  | none => setAssoc m (getSeg r) r
  | some existing =>
    if existing.similarity < r.similarity then setAssoc m (getSeg r) r else m

/-- `RAGService.deduplicateResults`: best hit per segment id (via a JS
`Map`), then sort the surviving values descending. -/
noncomputable def deduplicateResults (results : List SimilarityResult) :
    List SimilarityResult :=
  List.insertionSort simGE ((results.foldl dedupStep []).map Prod.snd)

/-- The threshold filter of `RAGService.retrieveContext`:
`results.filter(r => r.similarity >= this.config.similarityThreshold)`
applied to the semantic-search output. -/
noncomputable def thresholdStage (env : EmbedEnv) (vectors : List StoredVector)
    (config : RAGConfig) (question : Str) : List SimilarityResult :=
  (semanticSearch env vectors question config.retrievalLimit).filter
    fun r => decide (config.similarityThreshold ≤ r.similarity)

/-- The conditional boost of `retrieveContext`: applied only when a current
meeting id is given (JS truthiness: the empty string also skips it). -/
noncomputable def boostStage (currentMeetingId : Option Str)
    (results : List SimilarityResult) : List SimilarityResult :=
  match currentMeetingId with
  | some mid => if mid = [] then results else boostCurrentMeeting results mid
  | none => results

/-- `RAGService.retrieveContext`: semantic search, threshold filter,
conditional current-meeting boost, deduplication. -/
noncomputable def retrieveContext (env : EmbedEnv) (vectors : List StoredVector)
    (config : RAGConfig) (question : Str) (currentMeetingId : Option Str) :
    List SimilarityResult :=
  deduplicateResults (boostStage currentMeetingId (thresholdStage env vectors config question))

/-- JS `Math.trunc`-style truncation used by the float `%` operator. -/
noncomputable def jsTrunc (x : ℝ) : ℤ := if 0 ≤ x then ⌊x⌋ else -⌊-x⌋

/-- JS `%` on numbers: `a - b * trunc(a / b)` (sign of the dividend). -/
noncomputable def jsMod (a b : ℝ) : ℝ := a - b * (jsTrunc (a / b) : ℝ)

/-- JS `padStart(2, '0')`. -/
def padStart2 (s : Str) : Str :=
  if s.length < 2 then List.replicate (2 - s.length) '0' ++ s else s

/-- `RAGService.formatTime`: `Math.floor(seconds / 60)` minutes and
zero-padded `Math.floor(seconds % 60)` seconds. -/
noncomputable def formatTime (seconds : ℝ) : Str :=
  (toString ⌊seconds / 60⌋).toList ++ [':'] ++ padStart2 (toString ⌊jsMod seconds 60⌋).toList

/-- One `"[mm:ss] speaker: text"` line of `prepareContext`. -/
noncomputable def contextLine (r : SimilarityResult) : Str :=
  ['['] ++ formatTime r.vector.metadata.timestamp ++ [']', ' ']
    ++ r.vector.metadata.speaker ++ [':', ' '] ++ r.vector.metadata.text

/-- Accumulation loop of `RAGService.prepareContext`: append lines joined by
blank lines, stopping (with the `truncated` flag) before the concatenation
would exceed `maxContextLength`. -/
noncomputable def prepareContextGo (maxLen : ℕ) :
    List SimilarityResult → Str → Str × Bool
  | [], context => (context, false)
  | r :: rest, context =>
    let segmentText := contextLine r
    if maxLen < (context ++ segmentText).length then (context, true)
    else
      prepareContextGo maxLen rest
        (context ++ (if context = ([] : Str) then [] else ['\n', '\n']) ++ segmentText)

/-- `RAGService.prepareContext`. -/
noncomputable def prepareContext (config : RAGConfig) (results : List SimilarityResult) :
    Str × Bool :=
  prepareContextGo config.maxContextLength results []

/-- `RAGService.createSystemPrompt` (the conditional current-meeting clause
is inserted only for a truthy meeting id). -/
noncomputable def createSystemPrompt (currentMeetingId : Option Str) : Str :=
  "你是一个智能会议助手，专门分析和回答关于会议内容的问题。\n\n职责：\n- 基于提供的会议记录内容，准确回答用户的问题\n- 总是引用具体的发言人和时间点来支持你的回答\n- 如果信息不足，诚实说明并建议用户提供更多上下文\n- 保持回答简洁但详细，重点突出关键信息\n\n回答原则：\n1. 准确性：只基于提供的会议内容回答，不要编造信息\n2. 引用性：总是包含发言人和时间信息\n3. 结构性：使用清晰的格式组织答案\n4. 中文回答：使用专业但易懂的中文".toList
    ++ (match currentMeetingId with
        | some mid =>
          if mid = [] then []
          else "\n5. 当前会议：重点关注当前会议 ".toList ++ mid ++ " 的内容".toList
        | none => [])
    ++ "\n\n如果问题涉及多个会议，请明确标明哪些信息来自哪次会议。".toList

/-- `RAGService.createUserPrompt`. -/
def createUserPrompt (question context : Str) : Str :=
  "基于以下会议记录内容，请回答我的问题：\n\n会议记录：\n".toList ++ context
    ++ "\n\n用户问题：".toList ++ question
    ++ "\n\n请提供详细回答，并明确引用相关的发言人和时间点。".toList

/-- JS `context.split('\n\n')` (non-overlapping, left to right). -/
def splitNN : Str → Str → List Str
  | [], acc => [acc.reverse]
  | '\n' :: '\n' :: rest, acc => acc.reverse :: splitNN rest []
  | c :: rest, acc => splitNN rest (c :: acc)

/-- Decimal rendering of a natural number as a character list. -/
def natStr (n : ℕ) : Str := (Nat.repr n).toList

/-- `RAGService.generateFallbackAnswer`: number the first three context
lines, note how many further lines exist, and append the basic-mode
disclaimer. -/
def generateFallbackAnswer (context : Str) : Str :=
  let contextLines := splitNN context []
  "根据会议记录，我找到了以下相关信息：\n\n".toList
    ++ List.intercalate ['\n', '\n']
        ((contextLines.take 3).enum.map fun p => natStr (p.1 + 1) ++ ". ".toList ++ p.2)
    ++ "\n\n".toList
    ++ (if 3 < contextLines.length then
          "\n（还有 ".toList ++ natStr (contextLines.length - 3) ++ " 条相关记录）".toList
        else [])
    ++ "\n\n注意：当前使用基础检索模式。配置 OpenAI API Key 可获得更智能的回答。".toList

/-- Environment of `RAGService`: the embedding environment it delegates to,
its own credential, and the chat-completion call
(system prompt, user prompt, temperature, max tokens ↦ `some` response
content on success, `none` on transport failure or non-2xx status). -/
structure RAGEnv where
  embedEnv : EmbedEnv
  apiKey : String
  llm : Str → Str → ℝ → ℕ → Option Str

/-- `RAGService.generateAnswer`: extractive fallback when no credential is
configured; otherwise remote generation, falling back on failure; a
successful response is trimmed. -/
noncomputable def generateAnswer (env : RAGEnv) (config : RAGConfig)
    (question context : Str) (currentMeetingId : Option Str) : Str :=
  if env.apiKey = "" then generateFallbackAnswer context
  else
    match env.llm (createSystemPrompt currentMeetingId)
        (createUserPrompt question context) config.temperature config.maxTokens with
    | some content => trimStr content
    | none => generateFallbackAnswer context

/-- Prefix test used to model JS `String.prototype.includes`. -/
def listStartsWith : Str → Str → Bool
  | _, [] => true
  | [], _ :: _ => false
  | c :: s, d :: p => c = d && listStartsWith s p

/-- JS `answer.includes(phrase)`: contiguous-substring occurrence. -/
def listContainsSub : Str → Str → Bool
  | [], p => listStartsWith [] p
  | c :: s, p => listStartsWith (c :: s) p || listContainsSub s p

/-- The fixed hedging-phrase set of `RAGService.containsUncertainty`. -/
def uncertaintyPhrases : List Str :=
  ["可能".toList, "大概".toList, "似乎".toList, "不确定".toList,
   "没有找到".toList, "信息不足".toList, "建议".toList, "或许".toList]

/-- `RAGService.containsUncertainty`. -/
def containsUncertainty (answer : Str) : Bool :=
  uncertaintyPhrases.any fun phrase => listContainsSub answer phrase

/-- `RAGService.calculateConfidence`: average similarity times the source
boost `min(len/3, 1)` times the hedging penalty, clamped to at most 1. -/
noncomputable def calculateConfidence (results : List SimilarityResult)
    (answer : Str) : ℝ :=
  if results.length = 0 then 0
  else
    let avgSimilarity :=
      (results.foldl (fun sum r => sum + r.similarity) (0 : ℝ)) / (results.length : ℝ)
    let sourceBoost := min ((results.length : ℝ) / 3) 1
    let uncertaintyPenalty : ℝ := if containsUncertainty answer then 0.8 else 1
    min (avgSimilarity * sourceBoost * uncertaintyPenalty) 1

/-- A projected source entry of `RAGResult.sources`. -/
structure RAGSource where
  segmentId : Str
  meetingId : Str
  speaker : Str
  timestamp : ℝ
  text : Str
  similarity : ℝ

/-- The result object of `RAGService.query`. -/
structure RAGResult where
  answer : Str
  sources : List RAGSource
  usedContext : Str
  confidence : ℝ

/-- The fixed "no relevant content found" answer of `RAGService.query`. -/
def noEvidenceAnswer : Str :=
  "抱歉，我没有找到相关的会议内容来回答您的问题。请尝试使用不同的关键词或确保已加载相关的会议记录。".toList

/-- The fixed no-evidence result: the "not found" answer, no sources, empty
context, confidence 0. -/
def noEvidenceResult : RAGResult :=
  { answer := noEvidenceAnswer, sources := [], usedContext := [], confidence := 0 }

/-- `RAGService.query`: retrieve evidence; on empty evidence return the
fixed no-evidence result; otherwise assemble context, generate the answer,
score confidence, and project the sources. -/
noncomputable def ragQuery (env : RAGEnv) (config : RAGConfig)
    (vectors : List StoredVector) (question : Str)
    (currentMeetingId : Option Str) : RAGResult :=
  let retrievalResults := retrieveContext env.embedEnv vectors config question currentMeetingId
  if retrievalResults.length = 0 then noEvidenceResult
  else
    let contextData := prepareContext config retrievalResults
    let answer := generateAnswer env config question contextData.1 currentMeetingId
    let confidence := calculateConfidence retrievalResults answer
    { answer := answer
      sources := retrievalResults.map fun r =>
        { segmentId := r.vector.metadata.segmentId
          meetingId := r.vector.metadata.meetingId
          speaker := r.vector.metadata.speaker
          timestamp := r.vector.metadata.timestamp
          text := r.vector.metadata.text
          similarity := r.similarity }
      usedContext := contextData.1
      confidence := confidence }

/-- Invariant of the deduplication fold: the association list has distinct
keys, each stored pair is keyed by its hit's segment id with a hit drawn
from the processed prefix, and every processed hit is dominated by the
entry stored under its segment id. -/
def DedupInv (processed : List SimilarityResult)
    (m : List (Str × SimilarityResult)) : Prop :=
  (m.map Prod.fst).Nodup ∧
  (∀ kv ∈ m, getSeg kv.2 = kv.1 ∧ kv.2 ∈ processed) ∧
  (∀ r ∈ processed, ∃ v, getAssoc m (getSeg r) = some v ∧ r.similarity ≤ v.similarity)

/-- Spec-side definition of the confidence score, written after the spec's
words: "avg(similarity over evidence) * min(len(evidence)/3, 1) * (0.8 if
answer contains any of a fixed set of hedging phrases else 1.0), clamped to
at most 1.0" — to be compared with the source-side `calculateConfidence`. -/
noncomputable def confidenceSpec (results : List SimilarityResult) (answer : Str) : ℝ :=
  min
    ((results.map fun r => r.similarity).sum / (results.length : ℝ) *
      min ((results.length : ℝ) / 3) 1 *
      (if containsUncertainty answer then 0.8 else 1))
    1

/-- An embedding environment with no configured credential. -/
def noKeyEnv : EmbedEnv := ⟨"", fun _ => none⟩

/-- An embedding environment with a credential whose remote call always
fails (transport error / non-2xx). -/
def failEnv : EmbedEnv := ⟨"key", fun _ => none⟩

/-- An embedding environment whose remote call always succeeds with the
unit vector `[1, 0]`. -/
noncomputable def unitEnv : EmbedEnv := ⟨"key", fun _ => some [1, 0]⟩

/-- A stored record whose embedding `[0, 1]` is orthogonal to `[1, 0]`. -/
noncomputable def orthoVec : StoredVector :=
  ⟨[0, 1], ⟨"s1".toList, "m1".toList, "A".toList, 0, "t".toList, none⟩⟩

/-- A stored record in meeting `m1` whose embedding equals `[1, 0]`. -/
noncomputable def matchVec : StoredVector :=
  ⟨[1, 0], ⟨"s2".toList, "m1".toList, "B".toList, 0, "u".toList, none⟩⟩

/-- A placeholder stored record (empty embedding and metadata). -/
noncomputable def mkVec : StoredVector := ⟨[], ⟨[], [], [], 0, [], none⟩⟩

/-- A RAG environment with no credentials anywhere. -/
noncomputable def noKeyRAGEnv : RAGEnv := ⟨noKeyEnv, "", fun _ _ _ _ => none⟩

/-- A RAG environment delegating to `unitEnv`, whose generation call always
fails. -/
noncomputable def unitRAGEnv : RAGEnv := ⟨unitEnv, "key", fun _ _ _ _ => none⟩

/-- A partial configuration updating `temperature` and `retrievalLimit`. -/
noncomputable def patch0 : ConfigPatch := { temperature := some 0.5, retrievalLimit := some 3 }

/-! ### Arithmetic helper lemmas -/

theorem foldl_add_map {α : Type} (f : α → ℝ) :
    ∀ (l : List α) (c : ℝ), l.foldl (fun s x => s + f x) c = c + (l.map f).sum
  | [], c => by simp
  | x :: l, c => by
    rw [List.foldl_cons, foldl_add_map f l (c + f x)]
    simp [add_assoc]

theorem sumSq_eq (l : List ℝ) : sumSq l = (l.map fun x => x * x).sum := by
  rw [sumSq, foldl_add_map, zero_add]

theorem dotList_eq (a b : List ℝ) :
    dotList a b = ((a.zip b).map fun p => p.1 * p.2).sum := by
  rw [dotList, foldl_add_map, zero_add]

theorem sumSq_nonneg (l : List ℝ) : 0 ≤ sumSq l := by
  rw [sumSq_eq]
  apply List.sum_nonneg
  intro x hx
  rcases List.mem_map.mp hx with ⟨y, _, rfl⟩
  exact mul_self_nonneg y

theorem sumSq_cons (x : ℝ) (l : List ℝ) : sumSq (x :: l) = x * x + sumSq l := by
  simp [sumSq_eq]

theorem sumSq_eq_zero_iff : ∀ l : List ℝ, sumSq l = 0 ↔ ∀ x ∈ l, x = 0
  | [] => by simp [sumSq]
  | x :: l => by
    rw [sumSq_cons]
    constructor
    · intro h
      have hx : x * x = 0 ∧ sumSq l = 0 :=
        (add_eq_zero_iff_of_nonneg (mul_self_nonneg x) (sumSq_nonneg l)).mp h
      intro y hy
      rcases List.mem_cons.mp hy with rfl | hmem
      · exact mul_self_eq_zero.mp hx.1
      · exact (sumSq_eq_zero_iff l).mp hx.2 y hmem
    · intro h
      have hx : x = 0 := h x (List.mem_cons_self x l)
      have hl : sumSq l = 0 := (sumSq_eq_zero_iff l).mpr fun y hy => h y (List.mem_cons_of_mem x hy)
      simp [hx, hl]

theorem dotList_comm : ∀ a b : List ℝ, dotList a b = dotList b a
  | [], b => by cases b <;> simp [dotList]
  | a :: as, [] => by simp [dotList]
  | a :: as, b :: bs => by
    rw [dotList_eq, dotList_eq] at *
    simp only [List.zip_cons_cons, List.map_cons, List.sum_cons]
    rw [← dotList_eq, ← dotList_eq, dotList_comm as bs, mul_comm]

theorem dotList_self : ∀ v : List ℝ, dotList v v = sumSq v
  | [] => by simp [dotList, sumSq]
  | x :: v => by
    rw [dotList_eq, sumSq_eq] at *
    simp only [List.zip_cons_cons, List.map_cons, List.sum_cons]
    rw [← dotList_eq, ← sumSq_eq, dotList_self v]

theorem sumSq_map_div : ∀ (l : List ℝ) (n : ℝ),
    sumSq (l.map fun x => x / n) = sumSq l / (n * n)
  | [], n => by simp [sumSq]
  | x :: l, n => by
    rw [List.map_cons, sumSq_cons, sumSq_cons, sumSq_map_div l n,
      div_mul_div_comm, div_add_div_same]

theorem sumSq_replicate_zero : ∀ n : ℕ, sumSq (List.replicate n (0 : ℝ)) = 0
  | 0 => by simp [sumSq]
  | n + 1 => by
    rw [List.replicate_succ, sumSq_cons, sumSq_replicate_zero n]
    simp

/-! ### Claim C7: cosine similarity -/

theorem cosineSimilarity_of_length {a b : List ℝ} (h : a.length = b.length) :
    cosineSimilarity a b =
      if Real.sqrt (sumSq a) * Real.sqrt (sumSq b) = 0 then 0
      else dotList a b / (Real.sqrt (sumSq a) * Real.sqrt (sumSq b)) := by
  rw [cosineSimilarity, if_neg (by simp [h])]

/-- Claim C7: `cosineSimilarity` is symmetric; it is 1 on any non-zero
vector paired with itself; it returns 0 (not an error) when either argument
has zero norm (zero sum of squares) or when the two arguments have
different lengths. -/
theorem claim_C7 (a b v : List ℝ) :
    cosineSimilarity a b = cosineSimilarity b a ∧
    ((∃ x ∈ v, x ≠ 0) → cosineSimilarity v v = 1) ∧
    ((sumSq a = 0 ∨ sumSq b = 0) → cosineSimilarity a b = 0) ∧
    (a.length ≠ b.length → cosineSimilarity a b = 0) := by
  refine ⟨?_, ?_, ?_, ?_⟩
  · by_cases h : a.length = b.length
    · rw [cosineSimilarity_of_length h, cosineSimilarity_of_length h.symm,
        dotList_comm, mul_comm (Real.sqrt (sumSq a))]
    · rw [cosineSimilarity, cosineSimilarity, if_pos h, if_pos (Ne.symm h)]
  · rintro ⟨x, hx, hx0⟩
    have hS : sumSq v ≠ 0 := fun h => hx0 ((sumSq_eq_zero_iff v).mp h x hx)
    have hden : Real.sqrt (sumSq v) * Real.sqrt (sumSq v) = sumSq v :=
      Real.mul_self_sqrt (sumSq_nonneg v)
    rw [cosineSimilarity_of_length rfl, hden, if_neg hS, dotList_self, div_self hS]
  · intro h
    by_cases hlen : a.length ≠ b.length
    · rw [cosineSimilarity, if_pos hlen]
    · rw [cosineSimilarity_of_length (not_not.mp hlen)]
      rcases h with h | h <;> rw [h, Real.sqrt_zero]
      · rw [zero_mul, if_pos rfl]
      · rw [mul_zero, if_pos rfl]
  · intro h
    rw [cosineSimilarity, if_pos h]

/-- Witness for C7 at concrete inputs: self-similarity of `[1, 0]` is 1
(non-zero-vector hypothesis discharged at `x = 1`), and a dimension
mismatch scores 0. -/
theorem claim_C7_witness :
    cosineSimilarity [(1 : ℝ), 0] [1, 0] = 1 ∧
    cosineSimilarity [(1 : ℝ)] [1, 0] = 0 :=
  ⟨(claim_C7 [] [] [(1 : ℝ), 0]).2.1 ⟨1, by simp, one_ne_zero⟩,
   (claim_C7 [(1 : ℝ)] [1, 0] []).2.2.2 (by simp)⟩

/-! ### Claim C8: the fallback embedder -/

theorem scatterWord_length (entry : Str × ℕ) (e : List ℝ) :
    (scatterWord e entry).length = e.length := by
  rw [scatterWord]
  generalize List.range 5 = l
  induction l generalizing e with
  | nil => rfl
  | cons i l ih => rw [List.foldl_cons, ih]; simp

theorem preEmbedding_length (text : Str) : (preEmbedding text).length = 384 := by
  rw [preEmbedding]
  generalize wordFreq (tokenize (text.map Char.toLower)) = entries
  have : ∀ (es : List (Str × ℕ)) (e : List ℝ),
      (es.foldl scatterWord e).length = e.length := by
    intro es
    induction es with
    | nil => intro e; rfl
    | cons x es ih => intro e; rw [List.foldl_cons, ih, scatterWord_length]
  rw [this]
  exact List.length_replicate 384 0

/-- Claim C8: the fallback embedder always returns a vector of the fixed
dimension 384; it is deterministic (equal inputs give equal outputs — the
source computes from the text alone, with no ambient state); and the result
is L2-normalised to unit norm, or all-zero when the pre-normalisation norm
is 0. -/
theorem claim_C8 (text : Str) :
    (getFallbackEmbedding text).length = 384 ∧
    (∀ text2, text = text2 → getFallbackEmbedding text = getFallbackEmbedding text2) ∧
    (sumSq (preEmbedding text) ≠ 0 →
      Real.sqrt (sumSq (getFallbackEmbedding text)) = 1) ∧
    (sumSq (preEmbedding text) = 0 →
      getFallbackEmbedding text = List.replicate 384 0) := by
  refine ⟨?_, fun _ h => h ▸ rfl, ?_, ?_⟩
  · rw [getFallbackEmbedding]
    by_cases h : 0 < Real.sqrt (sumSq (preEmbedding text)) <;>
      simp [h, preEmbedding_length]
  · intro hS
    have hpos : 0 < sumSq (preEmbedding text) :=
      lt_of_le_of_ne (sumSq_nonneg _) (Ne.symm hS)
    have hnorm : 0 < Real.sqrt (sumSq (preEmbedding text)) := Real.sqrt_pos.mpr hpos
    rw [getFallbackEmbedding, if_pos hnorm, sumSq_map_div,
      Real.mul_self_sqrt (sumSq_nonneg _), div_self hS, Real.sqrt_one]
  · intro hS
    have hnorm : ¬ 0 < Real.sqrt (sumSq (preEmbedding text)) := by
      rw [hS, Real.sqrt_zero]; exact lt_irrefl 0
    rw [getFallbackEmbedding, if_neg hnorm]
    have hall := (sumSq_eq_zero_iff _).mp hS
    exact List.eq_replicate_iff.mpr ⟨preEmbedding_length text, hall⟩

theorem tokenize_nil : tokenize [] = [] := by
  rw [tokenize]

theorem preEmbedding_nil : preEmbedding [] = List.replicate 384 0 := by
  rw [preEmbedding, List.map_nil, tokenize_nil]
  rfl

/-- Witness for C8 at the concrete input `""` (no tokens): the hypothesis
of the all-zero branch is discharged by computation, and both the returned
vector and its dimension are produced explicitly. -/
theorem claim_C8_witness :
    getFallbackEmbedding [] = List.replicate 384 0 ∧
    (getFallbackEmbedding []).length = 384 :=
  ⟨(claim_C8 []).2.2.2 (by rw [preEmbedding_nil]; exact sumSq_replicate_zero 384),
   (claim_C8 []).1⟩

/-! ### Claims C1, C2, C9: error handling of the embedding boundary -/

theorem getEmbedding_noKey (env : EmbedEnv) (h : env.apiKey = "") (t : Str) :
    getEmbedding env t = Except.error "API key not configured for embedding service" := by
  rw [getEmbedding, if_pos h]

/-- Counterexample to C1 as stated: with no credential configured,
`getEmbedding` propagates an error (the source throws before its
`try`/`catch`) instead of returning the local fallback embedding. -/
theorem claim_C1_counterexample :
    getEmbedding noKeyEnv "hello".toList =
      Except.error "API key not configured for embedding service" :=
  getEmbedding_noKey noKeyEnv rfl "hello".toList

theorem getEmbedding_ok (env : EmbedEnv) (text : Str) (h : env.apiKey ≠ "") :
    getEmbedding env text = Except.ok (remoteOrFallback env text) := by
  rw [getEmbedding, if_neg h, remoteOrFallback]
  rcases hr : env.remote (cleanText text) with _ | v <;> simp [hr]

/-- Claim C1 (amended): when a credential is configured, `getEmbedding`
never propagates an error — it returns the remote embedding on success and
the deterministic local fallback on any remote failure; the never-throws
guarantee does not extend to the missing-credential case. -/
theorem claim_C1 (env : EmbedEnv) (text : Str) (h : env.apiKey ≠ "") :
    getEmbedding env text = Except.ok (remoteOrFallback env text) ∧
    (env.remote (cleanText text) = none →
      getEmbedding env text = Except.ok (getFallbackEmbedding (cleanText text))) := by
  constructor
  · exact getEmbedding_ok env text h
  · intro hr
    rw [getEmbedding_ok env text h, remoteOrFallback, hr]

/-- Witness for C1 at a concrete environment whose remote call fails: the
configured-credential hypothesis is discharged and the fallback embedding
is returned. -/
theorem claim_C1_witness :
    getEmbedding failEnv "hi".toList =
      Except.ok (getFallbackEmbedding (cleanText "hi".toList)) :=
  (claim_C1 failEnv "hi".toList (by decide)).2 rfl

theorem semanticSearch_nilStore (env : EmbedEnv) (q : Str) (limit : ℕ) :
    semanticSearch env [] q limit = [] := by
  rw [semanticSearch, if_pos (by simp : ([] : List StoredVector).length = 0)]

theorem semanticSearch_noKey (env : EmbedEnv) (h : env.apiKey = "")
    (store : List StoredVector) (q : Str) (limit : ℕ) :
    semanticSearch env store q limit = [] := by
  rw [semanticSearch]
  by_cases hl : store.length = 0
  · rw [if_pos hl]
  · rw [if_neg hl, getEmbedding_noKey env h]

theorem boostStage_nil (mid : Option Str) : boostStage mid [] = [] := by
  cases mid with
  | none => rfl
  | some m =>
    rw [boostStage]
    split <;> rfl

theorem deduplicateResults_nil : deduplicateResults [] = [] := rfl

theorem retrieveContext_noKey (env : EmbedEnv) (store : List StoredVector)
    (cfg : RAGConfig) (q : Str) (mid : Option Str) (h : env.apiKey = "") :
    retrieveContext env store cfg q mid = [] := by
  rw [retrieveContext, thresholdStage, semanticSearch_noKey env h,
    List.filter_nil, boostStage_nil, deduplicateResults_nil]

theorem retrieveContext_nilStore (env : EmbedEnv) (cfg : RAGConfig)
    (q : Str) (mid : Option Str) :
    retrieveContext env [] cfg q mid = [] := by
  rw [retrieveContext, thresholdStage, semanticSearch_nilStore,
    List.filter_nil, boostStage_nil, deduplicateResults_nil]

theorem ragQuery_of_empty (env : RAGEnv) (cfg : RAGConfig)
    (store : List StoredVector) (q : Str) (mid : Option Str)
    (h : retrieveContext env.embedEnv store cfg q mid = []) :
    ragQuery env cfg store q mid = noEvidenceResult := by
  rw [ragQuery, h]
  rw [if_pos (by simp : ([] : List SimilarityResult).length = 0)]

/-- Claim C2: with no embedding credential configured, `semanticSearch`
returns `[]` for every question, limit and store contents (the key-missing
throw of `getEmbedding` is caught), and consequently `RAGService.query`
returns the fixed no-evidence result with confidence 0 regardless of what
is indexed. -/
theorem claim_C2 (env : RAGEnv) (cfg : RAGConfig) (store : List StoredVector)
    (q : Str) (limit : ℕ) (mid : Option Str) (h : env.embedEnv.apiKey = "") :
    semanticSearch env.embedEnv store q limit = [] ∧
    ragQuery env cfg store q mid = noEvidenceResult :=
  ⟨semanticSearch_noKey env.embedEnv h store q limit,
   ragQuery_of_empty env cfg store q mid
     (retrieveContext_noKey env.embedEnv store cfg q mid h)⟩

/-- Witness for C2 at a concrete credential-less environment and a
non-empty store. -/
theorem claim_C2_witness :
    semanticSearch noKeyRAGEnv.embedEnv [orthoVec] "q".toList 5 = [] ∧
    ragQuery noKeyRAGEnv defaultConfig [orthoVec] "q".toList none = noEvidenceResult :=
  claim_C2 noKeyRAGEnv defaultConfig [orthoVec] "q".toList 5 none rfl

/-- Claim C9: whenever the retrieved evidence list is empty — in particular
whenever the store is empty — the answering path returns the fixed "no
relevant content found" result: fixed answer, confidence 0, no sources,
empty used context, and no error. -/
theorem claim_C9 (env : RAGEnv) (cfg : RAGConfig) (store : List StoredVector)
    (q : Str) (mid : Option Str) :
    (retrieveContext env.embedEnv store cfg q mid = [] →
      ragQuery env cfg store q mid = noEvidenceResult) ∧
    (store = [] →
      retrieveContext env.embedEnv store cfg q mid = [] ∧
      ragQuery env cfg store q mid = noEvidenceResult) := by
  constructor
  · exact ragQuery_of_empty env cfg store q mid
  · rintro rfl
    exact ⟨retrieveContext_nilStore env.embedEnv cfg q mid,
      ragQuery_of_empty env cfg [] q mid (retrieveContext_nilStore env.embedEnv cfg q mid)⟩

/-- Witness for C9 at a fully configured environment and the concrete empty
store. -/
theorem claim_C9_witness :
    ragQuery unitRAGEnv defaultConfig [] "anything".toList none = noEvidenceResult :=
  ((claim_C9 unitRAGEnv defaultConfig [] "anything".toList none).2 rfl).2

/-! ### Claim C6: the confidence score -/

/-- Claim C6: on non-empty evidence the source's `calculateConfidence`
equals the spec formula `avg * min(len/3, 1) * hedging-penalty`, clamped to
at most 1; and the lower bound is indeed not clamped — a negative
similarity can drive the confidence below 0. -/
theorem claim_C6 (results : List SimilarityResult) (answer : Str)
    (h : results ≠ []) :
    calculateConfidence results answer = confidenceSpec results answer ∧
    ∃ res ans, calculateConfidence res ans < 0 := by
  constructor
  · rw [calculateConfidence, if_neg (by simp [h]), confidenceSpec, foldl_add_map, zero_add]
  · refine ⟨[⟨mkVec, -3⟩], [], ?_⟩
    have hcu : containsUncertainty [] = false := by decide
    rw [calculateConfidence]
    norm_num [hcu, min_def]

/-- Witness for C6 at a concrete one-element evidence list. -/
theorem claim_C6_witness :
    calculateConfidence [⟨mkVec, 9 / 10⟩] [] = confidenceSpec [⟨mkVec, 9 / 10⟩] [] :=
  (claim_C6 [⟨mkVec, 9 / 10⟩] [] (by simp)).1

/-! ### Claim C10: configuration merge -/

/-- Claim C10: `updateConfig` is a whole-field merge — every field present
in the partial object takes the new value and every absent field keeps its
prior value. -/
theorem claim_C10 (cfg : RAGConfig) (p : ConfigPatch) :
    ((∀ v, p.maxContextLength = some v → (updateConfig cfg p).maxContextLength = v) ∧
      (p.maxContextLength = none →
        (updateConfig cfg p).maxContextLength = cfg.maxContextLength)) ∧
    ((∀ v, p.temperature = some v → (updateConfig cfg p).temperature = v) ∧
      (p.temperature = none → (updateConfig cfg p).temperature = cfg.temperature)) ∧
    ((∀ v, p.maxTokens = some v → (updateConfig cfg p).maxTokens = v) ∧
      (p.maxTokens = none → (updateConfig cfg p).maxTokens = cfg.maxTokens)) ∧
    ((∀ v, p.retrievalLimit = some v → (updateConfig cfg p).retrievalLimit = v) ∧
      (p.retrievalLimit = none →
        (updateConfig cfg p).retrievalLimit = cfg.retrievalLimit)) ∧
    ((∀ v, p.similarityThreshold = some v → (updateConfig cfg p).similarityThreshold = v) ∧
      (p.similarityThreshold = none →
        (updateConfig cfg p).similarityThreshold = cfg.similarityThreshold)) := by
  refine ⟨⟨fun v hv => ?_, fun hn => ?_⟩, ⟨fun v hv => ?_, fun hn => ?_⟩,
    ⟨fun v hv => ?_, fun hn => ?_⟩, ⟨fun v hv => ?_, fun hn => ?_⟩,
    ⟨fun v hv => ?_, fun hn => ?_⟩⟩ <;>
  simp_all [updateConfig]

/-- Witness for C10: a patch setting `temperature` updates it, and leaves
the absent `maxTokens` at its prior value. -/
theorem claim_C10_witness :
    (updateConfig defaultConfig patch0).temperature = 0.5 ∧
    (updateConfig defaultConfig patch0).maxTokens = defaultConfig.maxTokens :=
  ⟨(claim_C10 defaultConfig patch0).2.1.1 (0.5 : ℝ) rfl,
   (claim_C10 defaultConfig patch0).2.2.1.2 rfl⟩

/-! ### Claim C5: the chunker -/

theorem trimStr_length_le (s : Str) : (trimStr s).length ≤ s.length := by
  rw [trimStr]
  calc (((s.dropWhile isWS).reverse.dropWhile isWS).reverse).length
      = ((s.dropWhile isWS).reverse.dropWhile isWS).length := List.length_reverse _
    _ ≤ (s.dropWhile isWS).reverse.length := (List.dropWhile_sublist _).length_le
    _ = (s.dropWhile isWS).length := List.length_reverse _
    _ ≤ s.length := (List.dropWhile_sublist _).length_le

/-- Invariant of the chunking loop: provided every already-closed chunk is
short (≤ maxLength + 1) or the trim of a single input sentence, and the
current chunk is empty, a single sentence, or short, every produced chunk
is short or the trim of a single sentence. -/
theorem chunkLoop_good (maxLength : ℕ) (S : List Str) :
    ∀ (rest : List Str) (chunks : List Str) (curr : Str),
      (∀ s ∈ rest, s ∈ S) →
      (∀ c ∈ chunks, c.length ≤ maxLength + 1 ∨ ∃ s ∈ S, c = trimStr s) →
      (curr = [] ∨ (∃ s ∈ S, curr = s) ∨ curr.length ≤ maxLength + 1) →
      ∀ c ∈ chunkLoop maxLength rest chunks curr,
        c.length ≤ maxLength + 1 ∨ ∃ s ∈ S, c = trimStr s := by
  intro rest
  induction rest with
  | nil =>
    intro chunks curr _ hchunks hcurr c hc
    rw [chunkLoop] at hc
    by_cases ht : trimStr curr ≠ []
    · rw [if_pos ht] at hc
      rcases List.mem_append.mp hc with hc | hc
      · exact hchunks c hc
      · have hceq : c = trimStr curr := List.mem_singleton.mp hc
        subst hceq
        rcases hcurr with rfl | ⟨s, hs, hcs⟩ | hlen
        · left; simp [trimStr]
        · right; exact ⟨s, hs, by rw [hcs]⟩
        · left; exact le_trans (trimStr_length_le curr) hlen
    · rw [if_neg ht] at hc
      exact hchunks c hc
  | cons s rest ih =>
    intro chunks curr hrest hchunks hcurr c hc
    rw [chunkLoop] at hc
    have hsS : s ∈ S := hrest s (List.mem_cons_self s rest)
    have hrest' : ∀ t ∈ rest, t ∈ S := fun t ht => hrest t (List.mem_cons_of_mem s ht)
    by_cases hguard : maxLength < (curr ++ s).length ∧ curr ≠ []
    · rw [if_pos hguard] at hc
      refine ih (chunks ++ [trimStr curr]) s hrest' ?_ (Or.inr (Or.inl ⟨s, hsS, rfl⟩)) c hc
      intro c2 hc2
      rcases List.mem_append.mp hc2 with hc2 | hc2
      · exact hchunks c2 hc2
      · have hceq : c2 = trimStr curr := List.mem_singleton.mp hc2
        subst hceq
        rcases hcurr with rfl | ⟨t, htS, hct⟩ | hlen
        · exact absurd rfl hguard.2
        · right; exact ⟨t, htS, by rw [hct]⟩
        · left; exact le_trans (trimStr_length_le curr) hlen
    · rw [if_neg hguard] at hc
      refine ih chunks _ hrest' hchunks ?_ c hc
      by_cases hce : curr = []
      · subst hce
        right; left
        exact ⟨s, hsS, by simp⟩
      · right; right
        have h1 : ¬ maxLength < (curr ++ s).length := fun hlt => hguard ⟨hlt, hce⟩
        have h2 : (curr ++ s).length ≤ maxLength := le_of_not_lt h1
        have h3 : (curr ++ (if curr ≠ [] then ['。'] else []) ++ s).length
            = (curr ++ s).length + 1 := by
          rw [if_pos hce]
          simp [List.length_append]
          omega
        rw [h3]
        omega

/-- Claim C5 (amended): every chunk produced by `chunkText text maxLength`
has length at most `maxLength + 1` (the `'。'` join separator, which the
length guard does not count, can push a multi-sentence chunk one character
past `maxLength`), unless the chunk is the trim of a single sentence (a
single sentence alone may exceed `maxLength`) or the whole original text
returned as the fallback; and if splitting on sentence-terminal punctuation
yields no (nonblank) sentence, the original text is the sole chunk. -/
theorem claim_C5 (text : Str) (maxLength : ℕ) :
    (∀ c ∈ chunkText text maxLength,
      c.length ≤ maxLength + 1 ∨ (∃ s ∈ sentencesOf text, c = trimStr s) ∨ c = text) ∧
    (sentencesOf text = [] → chunkText text maxLength = [text]) := by
  constructor
  · intro c hc
    rw [chunkText] at hc
    by_cases hl : (chunkLoop maxLength (sentencesOf text) [] []).length > 0
    · rw [if_pos hl] at hc
      rcases chunkLoop_good maxLength (sentencesOf text) (sentencesOf text) [] []
          (fun _ hs => hs) (by simp) (Or.inl rfl) c hc with h | h
      · exact Or.inl h
      · exact Or.inr (Or.inl h)
    · rw [if_neg hl] at hc
      exact Or.inr (Or.inr (List.mem_singleton.mp hc))
  · intro hs
    rw [chunkText, hs]
    have hnil : chunkLoop maxLength [] [] [] = [] := by
      rw [chunkLoop, if_neg (by simp [trimStr])]
    rw [hnil]
    rfl

/-- Counterexample to C5 as stated: with sentences `"aaaaa"` and `"aaaa"`
(each of length ≤ 9) and `maxLength = 9`, the produced chunk
`"aaaaa。aaaa"` has length 10 > 9, because the length guard ignores the
`'。'` separator inserted by the join. -/
theorem claim_C5_counterexample :
    (∀ s ∈ sentencesOf "aaaaa.aaaa".toList, s.length ≤ 9) ∧
    chunkText "aaaaa.aaaa".toList 9 = ["aaaaa。aaaa".toList] ∧
    ("aaaaa。aaaa".toList).length = 10 := by
  decide

/-- Witness for C5 at concrete inputs: the single-sentence text `"hello"`
(membership hypothesis discharged by computation) and the no-sentence text
`""` for the fallback branch. -/
theorem claim_C5_witness :
    ("hello".toList.length ≤ 500 + 1 ∨
      (∃ s ∈ sentencesOf "hello".toList, "hello".toList = trimStr s) ∨
      "hello".toList = "hello".toList) ∧
    chunkText [] 5 = [[]] :=
  ⟨(claim_C5 "hello".toList 500).1 "hello".toList (by decide),
   (claim_C5 [] 5).2 (by decide)⟩

/-! ### Claim C3: semantic search -/

theorem cos_unit_ortho : cosineSimilarity [(1 : ℝ), 0] [0, 1] = 0 := by
  rw [cosineSimilarity_of_length (by rfl)]
  have hd : dotList [(1 : ℝ), 0] [0, 1] = 0 := by
    simp [dotList_eq]
  rw [hd]
  split <;> simp

theorem cos_unit_self : cosineSimilarity [(1 : ℝ), 0] [1, 0] = 1 := by
  rw [cosineSimilarity_of_length rfl]
  have hs : sumSq [(1 : ℝ), 0] = 1 := by norm_num [sumSq_eq]
  have hd : dotList [(1 : ℝ), 0] [1, 0] = 1 := by norm_num [dotList_eq]
  rw [hs, hd, Real.sqrt_one]
  norm_num

theorem rank_ortho : rankVectors [(1 : ℝ), 0] [orthoVec] = [⟨orthoVec, 0⟩] := by
  rw [rankVectors, List.map_cons, List.map_nil,
    show orthoVec.embedding = [(0 : ℝ), 1] from rfl, cos_unit_ortho]
  rfl

/-- Claim C3 (amended): `semanticSearch` scores every stored record by
cosine similarity against the query embedding, sorts descending, takes the
top `limit` — and then additionally drops every taken result whose
similarity does not strictly exceed 0.7; the empty store yields the empty
sequence without error. -/
theorem claim_C3 (env : EmbedEnv) (store : List StoredVector) (q : Str) (limit : ℕ) :
    (store = [] → semanticSearch env store q limit = []) ∧
    (env.apiKey ≠ "" →
      semanticSearch env store q limit =
        ((rankVectors (remoteOrFallback env q) store).take limit).filter
          (fun r => decide ((0.7 : ℝ) < r.similarity))) ∧
    List.Sorted simGE (rankVectors (remoteOrFallback env q) store) ∧
    List.Perm (rankVectors (remoteOrFallback env q) store)
      (store.map fun v => ⟨v, cosineSimilarity (remoteOrFallback env q) v.embedding⟩) ∧
    (semanticSearch env store q limit).length ≤ limit ∧
    List.Sorted simGE (semanticSearch env store q limit) ∧
    (∀ r ∈ semanticSearch env store q limit, (0.7 : ℝ) < r.similarity) := by
  have hcases : semanticSearch env store q limit = [] ∨
      ∃ qe, semanticSearch env store q limit =
        ((rankVectors qe store).take limit).filter
          (fun r => decide ((0.7 : ℝ) < r.similarity)) := by
    rw [semanticSearch]
    by_cases hl : store.length = 0
    · left; rw [if_pos hl]
    · rw [if_neg hl]
      rcases hge : getEmbedding env q with e | qe
      · left; rfl
      · right; exact ⟨qe, rfl⟩
  refine ⟨?_, ?_, List.sorted_insertionSort simGE _, List.perm_insertionSort simGE _,
    ?_, ?_, ?_⟩
  · rintro rfl
    exact semanticSearch_nilStore env q limit
  · intro h
    rw [semanticSearch]
    by_cases hl : store.length = 0
    · have hstore := List.length_eq_zero.mp hl
      subst hstore
      rw [if_pos (by simp : ([] : List StoredVector).length = 0), rankVectors,
        List.map_nil, show List.insertionSort simGE ([] : List SimilarityResult) = [] from rfl,
        List.take_nil, List.filter_nil]
    · rw [if_neg hl, getEmbedding_ok env q h]
  · rcases hcases with h | ⟨qe, h⟩ <;> rw [h]
    · simp
    · exact le_trans (List.length_filter_le _ _) (List.length_take_le _ _)
  · rcases hcases with h | ⟨qe, h⟩ <;> rw [h]
    · exact List.sorted_nil
    · exact List.Pairwise.sublist
        ((List.filter_sublist _).trans (List.take_sublist _ _))
        (List.sorted_insertionSort simGE _)
  · rcases hcases with h | ⟨qe, h⟩ <;> rw [h]
    · intro r hr
      exact absurd hr (List.not_mem_nil r)
    · intro r hr
      exact of_decide_eq_true (List.mem_filter.mp hr).2

/-- Counterexample to C3 as stated: a store holding one record orthogonal
to the query embedding.  The top-`limit` list has length 1 (the record,
scored 0), but `semanticSearch` returns `[]` — the layer filters out
results with similarity ≤ 0.7 after taking the top `limit`. -/
theorem claim_C3_counterexample :
    semanticSearch unitEnv [orthoVec] "q".toList 5 = [] ∧
    ((rankVectors [(1 : ℝ), 0] [orthoVec]).take 5).length = 1 := by
  constructor
  · rw [semanticSearch, if_neg (by simp), getEmbedding_ok unitEnv _ (by decide),
      show remoteOrFallback unitEnv "q".toList = [(1 : ℝ), 0] from rfl]
    show ((rankVectors [(1 : ℝ), 0] [orthoVec]).take 5).filter
        (fun r => decide ((0.7 : ℝ) < r.similarity)) = []
    rw [rank_ortho]
    norm_num [List.filter]
  · rw [rank_ortho]
    rfl

/-- Witness for C3 at concrete inputs: the empty store (hypothesis
discharged) and a one-record store whose result length is bounded by the
limit. -/
theorem claim_C3_witness :
    semanticSearch unitEnv [] "q".toList 3 = [] ∧
    (semanticSearch unitEnv [orthoVec] "q".toList 3).length ≤ 3 :=
  ⟨(claim_C3 unitEnv [] "q".toList 3).1 rfl,
   (claim_C3 unitEnv [orthoVec] "q".toList 3).2.2.2.2.1⟩

/-! ### Claim C4: retrieval pipeline (threshold, boost, deduplication) -/

theorem getAssoc_eq_none (m : List (Str × SimilarityResult)) (k : Str) :
    getAssoc m k = none ↔ k ∉ m.map Prod.fst := by
  induction m with
  | nil => simp [getAssoc]
  | cons kv m ih =>
    obtain ⟨k2, v2⟩ := kv
    rw [getAssoc, List.map_cons]
    by_cases h : k2 = k
    · subst h
      rw [if_pos rfl]
      constructor
      · intro hc
        exact (Option.some_ne_none v2 hc).elim
      · intro hc
        exact (hc (List.mem_cons_self _ _)).elim
    · rw [if_neg h, ih]
      constructor
      · intro hc hmem
        rcases List.mem_cons.mp hmem with hh | hmem2
        · exact h hh.symm
        · exact hc hmem2
      · intro hc hmem
        exact hc (List.mem_cons_of_mem _ hmem)

theorem setAssoc_not_mem (m : List (Str × SimilarityResult)) (k : Str)
    (v : SimilarityResult) (h : k ∉ m.map Prod.fst) :
    setAssoc m k v = m ++ [(k, v)] := by
  induction m with
  | nil => rfl
  | cons kv m ih =>
    obtain ⟨k2, v2⟩ := kv
    simp only [List.map_cons, List.mem_cons, not_or] at h
    rw [setAssoc, if_neg (fun hc => h.1 hc.symm), ih h.2, List.cons_append]

theorem keys_setAssoc_mem (m : List (Str × SimilarityResult)) (k : Str)
    (v : SimilarityResult) (h : k ∈ m.map Prod.fst) :
    (setAssoc m k v).map Prod.fst = m.map Prod.fst := by
  induction m with
  | nil => simp at h
  | cons kv m ih =>
    obtain ⟨k2, v2⟩ := kv
    by_cases hk : k2 = k
    · subst hk
      rw [setAssoc, if_pos rfl, List.map_cons, List.map_cons]
    · rw [List.map_cons] at h
      rcases List.mem_cons.mp h with hh | hmem
      · exact (hk hh.symm).elim
      · rw [setAssoc, if_neg hk, List.map_cons, List.map_cons, ih hmem]

theorem mem_setAssoc (m : List (Str × SimilarityResult)) (k : Str)
    (v : SimilarityResult) :
    ∀ kv ∈ setAssoc m k v, kv ∈ m ∨ kv = (k, v) := by
  induction m with
  | nil =>
    intro kv hkv
    right
    simpa [setAssoc] using hkv
  | cons kv2 m ih =>
    obtain ⟨k2, v2⟩ := kv2
    intro kv hkv
    by_cases hk : k2 = k
    · subst hk
      rw [setAssoc, if_pos rfl] at hkv
      rcases List.mem_cons.mp hkv with rfl | h
      · right; rfl
      · left; exact List.mem_cons_of_mem _ h
    · rw [setAssoc, if_neg hk] at hkv
      rcases List.mem_cons.mp hkv with rfl | h
      · left; exact List.mem_cons_self _ _
      · rcases ih kv h with h2 | h2
        · left; exact List.mem_cons_of_mem _ h2
        · right; exact h2

theorem getAssoc_setAssoc_self (m : List (Str × SimilarityResult)) (k : Str)
    (v : SimilarityResult) : getAssoc (setAssoc m k v) k = some v := by
  induction m with
  | nil => simp [setAssoc, getAssoc]
  | cons kv m ih =>
    obtain ⟨k2, v2⟩ := kv
    by_cases hk : k2 = k
    · subst hk
      rw [setAssoc, if_pos rfl, getAssoc, if_pos rfl]
    · rw [setAssoc, if_neg hk, getAssoc, if_neg hk]
      exact ih

theorem getAssoc_setAssoc_ne (m : List (Str × SimilarityResult)) (k k2 : Str)
    (v : SimilarityResult) (h : k2 ≠ k) :
    getAssoc (setAssoc m k v) k2 = getAssoc m k2 := by
  induction m with
  | nil => simp [setAssoc, getAssoc, Ne.symm h]
  | cons kv m ih =>
    obtain ⟨k3, v3⟩ := kv
    by_cases hk : k3 = k
    · subst hk
      rw [setAssoc, if_pos rfl, getAssoc, if_neg (fun hc => h hc.symm), getAssoc,
        if_neg (fun hc => h hc.symm)]
    · rw [setAssoc, if_neg hk, getAssoc, getAssoc]
      by_cases hk2 : k3 = k2
      · rw [if_pos hk2, if_pos hk2]
      · rw [if_neg hk2, if_neg hk2, ih]

theorem getAssoc_mem (m : List (Str × SimilarityResult)) (k : Str)
    (v : SimilarityResult) (h : getAssoc m k = some v) : (k, v) ∈ m := by
  induction m with
  | nil => exact absurd h (by simp [getAssoc])
  | cons kv m ih =>
    obtain ⟨k2, v2⟩ := kv
    rw [getAssoc] at h
    by_cases hk : k2 = k
    · subst hk
      rw [if_pos rfl] at h
      injection h with h
      subst h
      exact List.mem_cons_self _ _
    · rw [if_neg hk] at h
      exact List.mem_cons_of_mem _ (ih h)

theorem getAssoc_of_mem (m : List (Str × SimilarityResult)) (k : Str)
    (v : SimilarityResult) (hnd : (m.map Prod.fst).Nodup) (h : (k, v) ∈ m) :
    getAssoc m k = some v := by
  induction m with
  | nil => exact absurd h (List.not_mem_nil _)
  | cons kv m ih =>
    obtain ⟨k2, v2⟩ := kv
    rw [List.map_cons, List.nodup_cons] at hnd
    rcases List.mem_cons.mp h with hh | hmem
    · injection hh with h1 h2
      subst h1; subst h2
      rw [getAssoc, if_pos rfl]
    · have hk : k2 ≠ k := by
        rintro rfl
        exact hnd.1 (List.mem_map.mpr ⟨(k2, v), hmem, rfl⟩)
      rw [getAssoc, if_neg hk]
      exact ih hnd.2 hmem

theorem dedupInv_nil : DedupInv [] [] :=
  ⟨List.nodup_nil, by simp, by simp⟩

theorem dedupInv_step (processed : List SimilarityResult)
    (m : List (Str × SimilarityResult)) (r : SimilarityResult)
    (h : DedupInv processed m) : DedupInv (processed ++ [r]) (dedupStep m r) := by
  obtain ⟨hnd, hmem, hbound⟩ := h
  rw [dedupStep]
  rcases hg : getAssoc m (getSeg r) with _ | e
  · -- new key: append `(getSeg r, r)`
    have hnotin : getSeg r ∉ m.map Prod.fst := (getAssoc_eq_none m _).mp hg
    refine ⟨?_, ?_, ?_⟩
    · rw [setAssoc_not_mem m _ r hnotin, List.map_append, List.map_cons, List.map_nil]
      exact List.nodup_append.mpr ⟨hnd, List.nodup_singleton _,
        fun a ha hb => hnotin (by rwa [List.mem_singleton.mp hb] at ha)⟩
    · intro kv hkv
      rw [setAssoc_not_mem m _ r hnotin] at hkv
      rcases List.mem_append.mp hkv with hkv | hkv
      · obtain ⟨h1, h2⟩ := hmem kv hkv
        exact ⟨h1, List.mem_append_left _ h2⟩
      · have hkveq : kv = (getSeg r, r) := List.mem_singleton.mp hkv
        subst hkveq
        exact ⟨rfl, List.mem_append_right _ (List.mem_singleton_self _)⟩
    · intro r2 hr2
      rcases List.mem_append.mp hr2 with hr2 | hr2
      · obtain ⟨v, hv, hle⟩ := hbound r2 hr2
        have hne : getSeg r2 ≠ getSeg r := by
          rintro heq
          rw [heq, hg] at hv
          exact Option.noConfusion hv
        exact ⟨v, by rw [getAssoc_setAssoc_ne m _ _ r hne, hv], hle⟩
      · have hreq : r2 = r := List.mem_singleton.mp hr2
        subst hreq
        exact ⟨r2, getAssoc_setAssoc_self m _ r2, le_refl _⟩
  · -- existing key
    have hin : getSeg r ∈ m.map Prod.fst :=
      List.mem_map.mpr ⟨(getSeg r, e), getAssoc_mem m _ e hg, rfl⟩
    show DedupInv (processed ++ [r])
      (if e.similarity < r.similarity then setAssoc m (getSeg r) r else m)
    by_cases hlt : e.similarity < r.similarity
    · rw [if_pos hlt]
      refine ⟨?_, ?_, ?_⟩
      · rw [keys_setAssoc_mem m _ r hin]
        exact hnd
      · intro kv hkv
        rcases mem_setAssoc m _ r kv hkv with hkv | hkv
        · obtain ⟨h1, h2⟩ := hmem kv hkv
          exact ⟨h1, List.mem_append_left _ h2⟩
        · subst hkv
          exact ⟨rfl, List.mem_append_right _ (List.mem_singleton_self _)⟩
      · intro r2 hr2
        rcases List.mem_append.mp hr2 with hr2 | hr2
        · obtain ⟨v, hv, hle⟩ := hbound r2 hr2
          by_cases hne : getSeg r2 = getSeg r
          · have hve : v = e := by
              rw [hne, hg] at hv
              exact (Option.some_inj.mp hv).symm
            refine ⟨r, by rw [hne]; exact getAssoc_setAssoc_self m _ r, ?_⟩
            exact le_trans hle (hve ▸ le_of_lt hlt)
          · exact ⟨v, by rw [getAssoc_setAssoc_ne m _ _ r hne, hv], hle⟩
        · have hreq : r2 = r := List.mem_singleton.mp hr2
          subst hreq
          exact ⟨r2, getAssoc_setAssoc_self m _ r2, le_refl _⟩
    · rw [if_neg hlt]
      refine ⟨hnd, ?_, ?_⟩
      · intro kv hkv
        obtain ⟨h1, h2⟩ := hmem kv hkv
        exact ⟨h1, List.mem_append_left _ h2⟩
      · intro r2 hr2
        rcases List.mem_append.mp hr2 with hr2 | hr2
        · obtain ⟨v, hv, hle⟩ := hbound r2 hr2
          exact ⟨v, hv, hle⟩
        · have hreq : r2 = r := List.mem_singleton.mp hr2
          subst hreq
          exact ⟨e, hg, le_of_not_lt hlt⟩

theorem dedupInv_foldl (rs : List SimilarityResult) :
    ∀ (processed : List SimilarityResult) (m : List (Str × SimilarityResult)),
      DedupInv processed m → DedupInv (processed ++ rs) (rs.foldl dedupStep m) := by
  induction rs with
  | nil =>
    intro processed m h
    rw [List.append_nil]
    exact h
  | cons r rs ih =>
    intro processed m h
    rw [List.foldl_cons]
    have h2 := ih (processed ++ [r]) (dedupStep m r) (dedupInv_step processed m r h)
    rwa [List.append_assoc, List.singleton_append] at h2

theorem dedupInv_main (rs : List SimilarityResult) :
    DedupInv rs (rs.foldl dedupStep []) := by
  have h := dedupInv_foldl rs [] [] dedupInv_nil
  rwa [List.nil_append] at h

/-- Claim C4: the retrieval pipeline drops results below the similarity
threshold; the conditional boost multiplies matching results by 1.2 and
re-sorts without dropping anything (permutation); deduplication keeps, per
segment id, a hit dominating every same-id hit; and the final sequence is
in non-increasing similarity order with pairwise-distinct segment ids. -/
theorem claim_C4 (env : EmbedEnv) (store : List StoredVector) (cfg : RAGConfig)
    (q : Str) (mid : Option Str) :
    List.Sorted simGE (retrieveContext env store cfg q mid) ∧
    ((retrieveContext env store cfg q mid).map getSeg).Nodup ∧
    (∀ r ∈ retrieveContext env store cfg q mid,
      r ∈ boostStage mid (thresholdStage env store cfg q) ∧
      ∀ r2 ∈ boostStage mid (thresholdStage env store cfg q),
        getSeg r2 = getSeg r → r2.similarity ≤ r.similarity) ∧
    (∀ r2 ∈ boostStage mid (thresholdStage env store cfg q),
      ∃ r ∈ retrieveContext env store cfg q mid,
        getSeg r = getSeg r2 ∧ r2.similarity ≤ r.similarity) ∧
    (∀ r ∈ thresholdStage env store cfg q, cfg.similarityThreshold ≤ r.similarity) ∧
    (∀ (results : List SimilarityResult) (mid2 : Str),
      List.Perm (boostCurrentMeeting results mid2)
        (results.map fun r =>
          if r.vector.metadata.meetingId = mid2 then ⟨r.vector, r.similarity * 1.2⟩ else r) ∧
      List.Sorted simGE (boostCurrentMeeting results mid2)) := by
  have hInv := dedupInv_main (boostStage mid (thresholdStage env store cfg q))
  obtain ⟨hnd, hmem, hbound⟩ := hInv
  have hout : retrieveContext env store cfg q mid =
      List.insertionSort simGE
        (((boostStage mid (thresholdStage env store cfg q)).foldl dedupStep []).map
          Prod.snd) := by
    rw [retrieveContext, deduplicateResults]
  have hperm : List.Perm (retrieveContext env store cfg q mid)
      (((boostStage mid (thresholdStage env store cfg q)).foldl dedupStep []).map
        Prod.snd) := by
    rw [hout]
    exact List.perm_insertionSort simGE _
  refine ⟨?_, ?_, ?_, ?_, ?_, ?_⟩
  · rw [hout]
    exact List.sorted_insertionSort simGE _
  · have hmap := hperm.map getSeg
    rw [List.map_map] at hmap
    have hcongr : ((boostStage mid (thresholdStage env store cfg q)).foldl dedupStep []).map
        (getSeg ∘ Prod.snd) =
        ((boostStage mid (thresholdStage env store cfg q)).foldl dedupStep []).map Prod.fst :=
      List.map_congr_left fun kv hkv => (hmem kv hkv).1
    rw [hcongr] at hmap
    exact hmap.nodup_iff.mpr hnd
  · intro r hr
    have hr2 : r ∈ ((boostStage mid (thresholdStage env store cfg q)).foldl dedupStep []).map
        Prod.snd := hperm.mem_iff.mp hr
    obtain ⟨kv, hkvM, hkv2⟩ := List.mem_map.mp hr2
    have hkv := hmem kv hkvM
    refine ⟨hkv2 ▸ hkv.2, ?_⟩
    intro r2 hr2B hseg
    obtain ⟨v, hv, hle⟩ := hbound r2 hr2B
    have hget : getAssoc ((boostStage mid (thresholdStage env store cfg q)).foldl dedupStep [])
        kv.1 = some kv.2 :=
      getAssoc_of_mem _ kv.1 kv.2 hnd (by simpa using hkvM)
    have hkey : kv.1 = getSeg r := by rw [← hkv.1, hkv2]
    rw [hkey, hkv2] at hget
    rw [hseg, hget] at hv
    have hvr : r = v := Option.some_inj.mp hv
    rw [← hvr] at hle
    exact hle
  · intro r2 hr2B
    obtain ⟨v, hv, hle⟩ := hbound r2 hr2B
    have hvM : (getSeg r2, v) ∈
        (boostStage mid (thresholdStage env store cfg q)).foldl dedupStep [] :=
      getAssoc_mem _ _ v hv
    have hvmem : v ∈ retrieveContext env store cfg q mid :=
      hperm.mem_iff.mpr (List.mem_map.mpr ⟨(getSeg r2, v), hvM, rfl⟩)
    exact ⟨v, hvmem, (hmem _ hvM).1, hle⟩
  · intro r hr
    rw [thresholdStage] at hr
    exact of_decide_eq_true (List.mem_filter.mp hr).2
  · intro results mid2
    rw [boostCurrentMeeting]
    exact ⟨List.perm_insertionSort simGE _, List.sorted_insertionSort simGE _⟩

theorem rank_match : rankVectors [(1 : ℝ), 0] [matchVec] = [⟨matchVec, 1⟩] := by
  rw [rankVectors, List.map_cons, List.map_nil,
    show matchVec.embedding = [(1 : ℝ), 0] from rfl, cos_unit_self]
  rfl

theorem search_match :
    semanticSearch unitEnv [matchVec] "q".toList defaultConfig.retrievalLimit =
      [⟨matchVec, 1⟩] := by
  rw [semanticSearch, if_neg (by simp), getEmbedding_ok unitEnv _ (by decide),
    show remoteOrFallback unitEnv "q".toList = [(1 : ℝ), 0] from rfl]
  show ((rankVectors [(1 : ℝ), 0] [matchVec]).take defaultConfig.retrievalLimit).filter
      (fun r => decide ((0.7 : ℝ) < r.similarity)) = [⟨matchVec, 1⟩]
  rw [rank_match,
    show List.take defaultConfig.retrievalLimit [(⟨matchVec, 1⟩ : SimilarityResult)]
      = [⟨matchVec, 1⟩] from rfl,
    List.filter_cons, List.filter_nil]
  rw [if_pos (decide_eq_true (by norm_num :
    (0.7 : ℝ) < (⟨matchVec, 1⟩ : SimilarityResult).similarity))]

theorem retrieve_concrete :
    retrieveContext unitEnv [matchVec] defaultConfig "q".toList (some "m1".toList) =
      [⟨matchVec, 1 * 1.2⟩] := by
  have h2 : thresholdStage unitEnv [matchVec] defaultConfig "q".toList = [⟨matchVec, 1⟩] := by
    rw [thresholdStage, search_match, List.filter_cons, List.filter_nil,
      if_pos (decide_eq_true (by norm_num [defaultConfig] :
        defaultConfig.similarityThreshold ≤ (⟨matchVec, 1⟩ : SimilarityResult).similarity))]
  have h3 : boostStage (some "m1".toList) [(⟨matchVec, 1⟩ : SimilarityResult)] =
      [⟨matchVec, 1 * 1.2⟩] := by
    rw [boostStage]
    rw [if_neg (by decide : ¬"m1".toList = []), boostCurrentMeeting, List.map_cons,
      List.map_nil, if_pos (show
        (⟨matchVec, (1 : ℝ)⟩ : SimilarityResult).vector.metadata.meetingId = "m1".toList
        by rfl)]
    rfl
  have h4 : deduplicateResults [(⟨matchVec, (1 : ℝ) * 1.2⟩ : SimilarityResult)] =
      [⟨matchVec, 1 * 1.2⟩] := by
    rw [deduplicateResults]
    rfl
  rw [retrieveContext, h2, h3, h4]

/-- Witness for C4 at a concrete pipeline run: one record in the current
meeting, boosted from similarity 1 to 1.2; the membership hypothesis of the
dedup-dominance part is discharged by the computed retrieval result. -/
theorem claim_C4_witness :
    List.Sorted simGE
      (retrieveContext unitEnv [matchVec] defaultConfig "q".toList (some "m1".toList)) ∧
    (⟨matchVec, 1 * 1.2⟩ : SimilarityResult) ∈
      boostStage (some "m1".toList)
        (thresholdStage unitEnv [matchVec] defaultConfig "q".toList) := by
  have h := claim_C4 unitEnv [matchVec] defaultConfig "q".toList (some "m1".toList)
  refine ⟨h.1, ?_⟩
  have hmem : (⟨matchVec, 1 * 1.2⟩ : SimilarityResult) ∈
      retrieveContext unitEnv [matchVec] defaultConfig "q".toList (some "m1".toList) := by
    rw [retrieve_concrete]
    exact List.mem_singleton_self _
  exact ((h.2.2.1 _ hmem).1)

end MeetingAgent
